import Mathlib

/-!
Verification of the cpes_csv repository: three fetch-transform-publish
pipelines (`cpes/download_cpes.py`, `epss/epss_scores_download.py`,
`cisa_vulnrichment/cisa_vulnrichment_download.py`).  Each Python function
relevant to the checked properties is shallowly embedded as an executable
Lean definition; theorems about those definitions settle the spec claims.
-/

namespace CpesCsv

/-! ### Character-level string operations

Python string primitives used by the pipelines, defined structurally over
the character lists of Lean strings so that every model computation can
be evaluated by the kernel.  Python compares strings lexicographically by
code point, which is exactly `lexLe` below. -/

def lexLe : List Char → List Char → Bool
  | [], _ => true
  | _ :: _, [] => false
  | a :: as, b :: bs =>
    if a.toNat < b.toNat then true
    else if b.toNat < a.toNat then false
    else lexLe as bs

/-- Python string comparison `a <= b`. -/
def sLe (a b : String) : Bool := lexLe a.data b.data

/-- Python strict string comparison `a < b` (total order, so `a < b` is
the complement of `b <= a`). -/
def sLt (a b : String) : Bool := !sLe b a

def lexStarts : List Char → List Char → Bool
  | [], _ => true
  | _ :: _, [] => false
  | p :: ps, c :: cs => p == c && lexStarts ps cs

/-- Python `s.startswith(p)`. -/
def sStartsWith (s p : String) : Bool := lexStarts p.data s.data

/-- Python `s.endswith(p)`. -/
def sEndsWith (s p : String) : Bool := lexStarts p.data.reverse s.data.reverse

/-- Python `c in s` for a single character `c`. -/
def sContainsChar (s : String) (c : Char) : Bool := s.data.contains c

def isWsChar (c : Char) : Bool :=
  c == ' ' || c == '\t' || c == '\n' || c == '\r'

def digitVal : Char → Option Nat
  | c =>
    if ('0').toNat ≤ c.toNat && c.toNat ≤ ('9').toNat then
      some (c.toNat - ('0').toNat)
    else none

def parseDigits : List Char → Option Nat → Option Nat
  | [], acc => acc
  | c :: cs, acc =>
    match digitVal c, acc with
    | some d, some n => parseDigits cs (some (n * 10 + d))
    | some d, none => parseDigits cs (some d)
    | none, _ => none

/-- Python `int(s.strip())` (as `Option`, `none` when an exception is
raised) for the decimal contents the checkpoint code writes. -/
def sParseNat (s : String) : Option Nat :=
  parseDigits ((s.data.dropWhile isWsChar).reverse.dropWhile isWsChar).reverse none

/-- Python `s.replace(chr(34), 2*chr(34))`: double every quote character. -/
def escQuotes : List Char → List Char
  | [] => []
  | c :: cs => if c == '"' then '"' :: '"' :: escQuotes cs else c :: escQuotes cs

/-- Join strings with a comma separator, as `csv.writer` does between
fields. -/
def joinComma : List String → String
  | [] => ""
  | [x] => x
  | x :: rest => x ++ "," ++ joinComma rest

/-- Concatenation of a list of strings. -/
def sConcat : List String → String
  | [] => ""
  | x :: rest => x ++ sConcat rest

/-! ### JSON value model

Python JSON values as produced by `json.load`: dicts keep insertion order
(modelled as association lists), numbers are carried by their literal text
(their exact numeric value never matters for the checked properties).
Equality is structural, which agrees with Python `==` on JSON values of
like shape (the bool/int overlap `False == 0` and order-insensitive dict
equality are not exercised by any checked property). -/

inductive JValue where
  | null
  | bool (b : Bool)
  | num (lit : String)
  | str (s : String)
  | list (items : List JValue)
  | dict (entries : List (String × JValue))

mutual

/-- Structural equality of JSON values, modelling Python `==` as used in
`safe_get` (`result == default`). -/
def jeq : JValue → JValue → Bool
  | .null, .null => true
  | .bool a, .bool b => a == b
  | .num a, .num b => a == b
  | .str a, .str b => a == b
  | .list xs, .list ys => jeqList xs ys
  | .dict xs, .dict ys => jeqEntries xs ys
  | _, _ => false

def jeqList : List JValue → List JValue → Bool
  | [], [] => true
  | x :: xs, y :: ys => jeq x y && jeqList xs ys
  | _, _ => false

def jeqEntries : List (String × JValue) → List (String × JValue) → Bool
  | [], [] => true
  | (k1, v1) :: xs, (k2, v2) :: ys => k1 == k2 && jeq v1 v2 && jeqEntries xs ys
  | _, _ => false

end

/-- Keys passed to `safe_get`: the repository passes strings and (possibly
negative, as Python ints) integers. -/
inductive JKey where
  | str (s : String)
  | idx (i : Int)
deriving DecidableEq

/-- Association-list lookup, modelling Python `dict.get` for string keys. -/
def jlookup : List (String × JValue) → String → Option JValue
  | [], _ => none
  | (k, v) :: rest, s => if k = s then some v else jlookup rest s

/-- Python truthiness of a JSON value (`if x:`): `None`, `False`, numeric
zero, empty string, empty list and empty dict are falsy. -/
def pyTruthy : JValue → Bool
  | .null => false
  | .bool b => b
  | .num lit => !(lit = "0" || lit = "0.0" || lit = "-0" || lit = "-0.0")
  | .str s => !(s = "")
  | .list items => !items.isEmpty
  | .dict entries => !entries.isEmpty

mutual

/-- Python `str()` of a JSON value as applied by `csv.writer`: exact on the
scalar cases the pipelines produce; containers get a deterministic
bracketed rendering abstracting Python `repr`. -/
def pyStr : JValue → String
  | .null => "None"
  | .bool true => "True"
  | .bool false => "False"
  | .num lit => lit
  | .str s => s
  | .list items => "[" ++ pyStrItems items ++ "]"
  | .dict entries => "\x7b" ++ pyStrEntries entries ++ "\x7d"

def pyStrItems : List JValue → String
  | [] => ""
  | [v] => pyStr v
  | v :: rest => pyStr v ++ ", " ++ pyStrItems rest

def pyStrEntries : List (String × JValue) → String
  | [] => ""
  | [(k, v)] => k ++ ": " ++ pyStr v
  | (k, v) :: rest => k ++ ": " ++ pyStr v ++ ", " ++ pyStrEntries rest

end

/-! ### safe_get (cisa_vulnrichment_download.py, lines 63-74)

Faithful embedding of the nested `safe_get` helper.  Python list indexing
`result[key]` is only reached under the guard `len(result) > key`; for a
negative `key` it wraps from the end when `-len <= key` and raises
`IndexError` otherwise, so the embedding returns `Except`, with `.error`
standing for a raised exception. -/

/-- Python `l[i]` for an int `i`, as reached in `safe_get` under the guard
`len(l) > i`: non-negative in-range indices select directly, negative
indices wrap from the end, and a negative index below `-len(l)` raises. -/
def pyListIdx (l : List JValue) (i : Int) : Except Unit JValue :=
  if 0 ≤ i then
    match l.get? i.toNat with
    | some v => .ok v
    | none => .error ()
  else if (0 : Int) ≤ (l.length : Int) + i then
    .ok (l.getD ((l.length : Int) + i).toNat .null)
  else
    .error ()

/-- The `safe_get(data, *keys, default=...)` descent: at each key, a dict
is read with `dict.get(key, default)` (an int key is absent from a JSON
dict, giving the default), a list is indexed when the key is an int with
`len(result) > key`, and anything else returns the default; after each
step, a result equal to the default returns the default at once; after the
last key, `None` maps to the default. -/
def safe_get : JValue → List JKey → JValue → Except Unit JValue
  | result, [], d => .ok (match result with | .null => d | v => v)
  | result, k :: ks, d =>
    match result, k with
    | .dict es, .str s =>
      let r := (jlookup es s).getD d
      if jeq r d then .ok d else safe_get r ks d
    | .dict _, .idx _ => .ok d
    | .list l, .idx i =>
      if i < (l.length : Int) then
        match pyListIdx l i with
        | .ok r => if jeq r d then .ok d else safe_get r ks d
        | .error e => .error e
      else .ok d
    | .list _, .str _ => .ok d
    | _, _ => .ok d

/-- Plain structural descent along a key path, independent of any default:
`some v` when every step matches (present dict key, or an in-range
non-negative list index) and ends at `v`; `none` when some step fails.
Used to state which descents `safe_get` is claimed to degrade on. -/
def descendPath : JValue → List JKey → Option JValue
  | v, [] => some v
  | .dict es, .str s :: ks =>
    match jlookup es s with
    | some r => descendPath r ks
    | none => none
  | .list l, .idx i :: ks =>
    if 0 ≤ i ∧ i < (l.length : Int) then descendPath (l.getD i.toNat .null) ks
    else none
  | _, _ => none

/-- A key is a string or a non-negative index. -/
def keyNonneg : JKey → Prop
  | .str _ => True
  | .idx i => 0 ≤ i

instance (k : JKey) : Decidable (keyNonneg k) := by
  cases k with
  | str s => exact isTrue trivial
  | idx i => exact inferInstanceAs (Decidable (0 ≤ i))

/-! ### The paginated CPE pipeline (cpes/download_cpes.py)

The download loop of `main` (lines 85-126) is embedded as an event trace.
A fetch attempt outcome is abstracted as `f page attempt : Bool`, true
when the HTTP request succeeds, the body parses and the page's `products`
list is non-empty (any of those failing lands in the shared `except`
handler).  Events record, in program order: the request of line 102, the
per-page payload write of lines 108-109, the checkpoint write of lines
113-114, the backoff sleep of line 121, the politeness sleep of line 126
and the `sys.exit` of line 125. -/

def MAX_RETRIES : Nat := 5

def SLEEP_BETWEEN_REQUESTS : Nat := 7

inductive Ev where
  | request (page : Nat) (attempt : Nat)
  | writePageFile (page : Nat)
  | writeCheckpoint (v : Nat)
  | sleepSec (n : Nat)
  | exitCode (c : Nat)
deriving DecidableEq

/-- One page's retry loop, `for attempt in range(MAX_RETRIES)` (lines
99-125), entered at attempt number `a` with `remaining = MAX_RETRIES - a`
iterations left.  On success the payload file is written, then the
checkpoint is advanced to `page+1` and the loop breaks; on failure the
loop sleeps `5 * (attempt+1)` seconds while `attempt < MAX_RETRIES - 1`
and otherwise exits with status 2.  Returns the events and whether the
page was downloaded. -/
def attemptsGo (f : Nat → Nat → Bool) (page : Nat) : Nat → Nat → List Ev × Bool
  | _, 0 => ([], false)
  | a, remaining + 1 =>
    if f page a then
      ([.request page a, .writePageFile page, .writeCheckpoint (page + 1)], true)
    else if remaining = 0 then
      ([.request page a, .exitCode 2], false)
    else
      let r := attemptsGo f page (a + 1) remaining
      (.request page a :: .sleepSec (5 * (a + 1)) :: r.1, r.2)

/-- The retry loop for one page, started at attempt 0. -/
def pageAttempts (f : Nat → Nat → Bool) (page : Nat) : List Ev × Bool :=
  attemptsGo f page 0 MAX_RETRIES

/-- The page loop `for page in range(start_page, total_pages)` (lines
96-126) over an explicit list of pages: each downloaded page is followed
by the politeness sleep; a page whose retries are exhausted ends the run. -/
def pagesTrace (f : Nat → Nat → Bool) : List Nat → List Ev
  | [] => []
  | p :: rest =>
    let r := pageAttempts f p
    if r.2 then r.1 ++ .sleepSec SLEEP_BETWEEN_REQUESTS :: pagesTrace f rest
    else r.1

/-- Event trace of the download phase of a run fetching pages
`start, ..., total - 1`. -/
def cpesDownloadTrace (f : Nat → Nat → Bool) (start total : Nat) : List Ev :=
  pagesTrace f (List.range' start (total - start))

/-! The checkpoint handling of lines 85-93: `temp_dir = tempfile.mkdtemp(dir=DATA_DIR)`
creates a fresh, empty directory with a new unique name, and the
checkpoint is read from `temp_dir/checkpoint.txt`.  The filesystem is an
association list from paths to file contents. -/

def lookupFs : List (String × String) → String → Option String
  | [], _ => none
  | (p, c) :: rest, q => if p = q then some c else lookupFs rest q

/-- Path of the checkpoint file inside a run's temp directory (line 86). -/
def checkpointPath (tempDir : String) : String := tempDir ++ "/checkpoint.txt"

/-- Lines 87-93: `start_page` is the parsed checkpoint content when
`temp_dir/checkpoint.txt` exists, and 0 otherwise (also 0 when parsing
fails). -/
def cpesStartPage (fs : List (String × String)) (tempDir : String) : Nat :=
  match lookupFs fs (checkpointPath tempDir) with
  | some s => (sParseNat s).getD 0
  | none => 0

/-- The download trace of a run whose fresh temp directory is `tempDir`,
resuming from the checkpoint it finds there. -/
def cpesRunTrace (fs : List (String × String)) (tempDir : String)
    (f : Nat → Nat → Bool) (total : Nat) : List Ev :=
  cpesDownloadTrace f (cpesStartPage fs tempDir) total

/-- Event `q` is preceded by event `p` wherever it occurs in `l`. -/
def PrecededBy (q p : Ev) (l : List Ev) : Prop :=
  ∀ i, l.get? i = some q → ∃ j, j < i ∧ l.get? j = some p

/-! ### The EPSS pipeline (epss/epss_scores_download.py)

The data directory is an association list from paths to file contents.
A content is the text of a csv file, a gzip payload (carried by its
decompressed lines), a tar.gz archive holding one member, or the partial
content left at a path whose write began but did not complete. -/

inductive FContent where
  | text (lines : List String)
  | gzData (lines : List String)
  | tarArchive (memberName : String) (lines : List String)
  | partialFile
deriving DecidableEq

abbrev Fs := List (String × FContent)

def fsGet : Fs → String → Option FContent
  | [], _ => none
  | (p, c) :: rest, q => if p = q then some c else fsGet rest q

/-- Write (create or overwrite) path `p` with content `c`. -/
def fsSet (fs : Fs) (p : String) (c : FContent) : Fs :=
  (p, c) :: fs.filter (fun kv => !(kv.1 = p))

/-- Remove path `p` if present. -/
def fsRemove (fs : Fs) (p : String) : Fs :=
  fs.filter (fun kv => !(kv.1 = p))

/-- Last path component, modelling `os.path.basename`. -/
def baseName (p : String) : String :=
  String.mk ((p.data.reverse.takeWhile (fun c => !(c == '/'))).reverse)

/-- The publish tail repeated verbatim in all three mains
(`download_cpes.py` lines 174-184, `epss_scores_download.py` lines
118-129, `cisa_vulnrichment_download.py` lines 308-319):
`tarfile.open(canon_tar_gz, "w:gz")` opens the archive for writing AT THE
CANONICAL PATH, which truncates any file already there; `tar.add` then
writes the archive, and only afterwards is the uncompressed canonical
file removed (best-effort).  `compressOk = false` stands for an exception
raised while the archive is being produced, which propagates out of `main`
uncaught; the result is then `.error` carrying the filesystem at that
point, with the truncated partial archive at the canonical archive path. -/
def compressAndSwap (canonPath tarPath : String) (fs : Fs) (compressOk : Bool) :
    Except Fs Fs :=
  let fs1 := fsSet fs tarPath .partialFile
  if compressOk then
    let content := match fsGet fs1 canonPath with
      | some (.text ls) => ls
      | _ => []
    let fs2 := fsSet fs1 tarPath (.tarArchive (baseName canonPath) content)
    .ok (fsRemove fs2 canonPath)
  else
    .error fs1

/-- Outcome of one HTTP GET of the dated EPSS file: a definitive 404, a
successful response carrying the decompressed csv lines of the body, or
any other failure (`raise_for_status` or a streaming error). -/
inductive HttpResp where
  | notFound
  | okResp (body : List String)
  | failResp

/-- Result of a run: process exit code (0 on success), final data
directory state, and how many HTTP fetch attempts were made. -/
structure EpssResult where
  exit : Nat
  fs : Fs
  fetchCount : Nat
deriving DecidableEq

def epssOutGz (dateStr : String) : String :=
  "data/epss_scores-" ++ dateStr ++ ".csv.gz"

def epssCsvOut (dateStr : String) : String :=
  "data/epss_scores-" ++ dateStr ++ ".csv"

def epssCanon : String := "data/epss_scores.csv"

def epssCanonTarGz : String := "data/epss_scores.csv.tar.gz"

/-- Embedding of `main` of epss_scores_download.py (lines 32-148), data
directory effects only (logging goes to the separate log directory).
Lines 54-56: if the dated `.csv.gz` already exists the run exits 0 at
once.  Lines 59-74: one GET; on 404 exit 1; on any other failure the
partial `.part` file is removed and the run exits 2; on success the body
is written to `.part` then moved to the dated path.  Lines 80-100:
extraction to the dated `.csv`, then comment lines starting with `#` are
filtered out in place.  Lines 103-116: canonical swap (remove old
canonical csv, move the dated csv there).  Lines 118-129: the shared
compress-and-swap tail; an exception there aborts the run uncaught
(Python exit status 1).  Lines 131-138: every remaining `.csv.gz` file is
removed. -/
def epssMain (fs : Fs) (dateStr : String) (resp : HttpResp) (compressOk : Bool) :
    EpssResult :=
  let out_gz := epssOutGz dateStr
  let tmp_gz := out_gz ++ ".part"
  if (fsGet fs out_gz).isSome then ⟨0, fs, 0⟩
  else
    match resp with
    | .notFound => ⟨1, fs, 1⟩
    | .failResp => ⟨2, fsRemove fs tmp_gz, 1⟩
    | .okResp body =>
      let fs1 := fsSet fs tmp_gz (.gzData body)
      let fs2 := fsSet (fsRemove fs1 tmp_gz) out_gz (.gzData body)
      let csv_out := epssCsvOut dateStr
      let fs3 := fsSet fs2 csv_out (.text body)
      let kept := body.filter (fun l => !sStartsWith l "#")
      let fs4 := fsSet fs3 csv_out (.text kept)
      let fs5 := fsSet (fsRemove (fsRemove fs4 epssCanon) csv_out) epssCanon (.text kept)
      match compressAndSwap epssCanon epssCanonTarGz fs5 compressOk with
      | .error fsE => ⟨1, fsE, 1⟩
      | .ok fs6 => ⟨0, fs6.filter (fun kv => !sEndsWith kv.1 ".csv.gz"), 1⟩

/-! ### The vulnrichment normalizer (cisa_vulnrichment_download.py)

Embedding of `csv_from_vulnrichment` (lines 61-265) and its nested
helpers.  A raised Python exception is an `.error` of the `Except` monad;
`parse_cve_json` catches every exception of its body (line 196), so a
file whose processing raises contributes an error entry and no row. -/

/-- Key test of `find_cvss_data` (line 83): `key.startswith('cvssV') and
'_' in key`. -/
def cvssKeyMatch (k : String) : Bool :=
  sStartsWith k "cvssV" && sContainsChar k '_'

def findCvssEntry : List (String × JValue) → Option (String × JValue)
  | [] => none
  | (k, v) :: rest => if cvssKeyMatch k then some (k, v) else findCvssEntry rest

def findCvssList : List JValue → Option (String × JValue)
  | [] => none
  | .dict es :: rest =>
    match findCvssEntry es with
    | some r => some r
    | none => findCvssList rest
  | _ :: rest => findCvssList rest

/-- Lines 76-85: first version-prefixed CVSS entry of the first dict
metric holding one; `(None, None)` — here `none` — when the metrics value
is not a list, is empty, or holds no match. -/
def find_cvss_data : JValue → Option (String × JValue)
  | .list xs => findCvssList xs
  | _ => none

/-- The mutable `ssvc_data` dict built by `find_ssvc_data`: an absent
field is `none`, matching `ssvc_data.get(field, '')` reading absent keys. -/
structure SsvcData where
  exploitation : Option JValue
  automatable : Option JValue
  impact : Option JValue
  cveId : Option JValue
  kevEntry : Option JValue
  kevDate : Option JValue

def ssvcEmpty : SsvcData := ⟨none, none, none, none, none, none⟩

/-- Lines 100-108: one `option` dict updates the three SSVC decision
fields keyed `Exploitation`, `Automatable` and `Technical Impact`. -/
def ssvcOfOption (st : SsvcData) : JValue → SsvcData
  | .dict es =>
    es.foldl
      (fun s kv =>
        if kv.1 = "Exploitation" then {s with exploitation := some kv.2}
        else if kv.1 = "Automatable" then {s with automatable := some kv.2}
        else if kv.1 = "Technical Impact" then {s with impact := some kv.2}
        else s)
      st
  | _ => st

/-- Lines 91-113, one metric: reads `other`, `other.content`,
`content.options`; records `content.id` when present; when
`other.get('type') == 'kev'` it records the KEV marker and
`content.get('dateAdded', '')` — the latter raises (AttributeError) when
`content` is not a dict, because the KEV branch sits outside the
`isinstance(content, dict)` guard. -/
def ssvcOfMetric (st : SsvcData) (metric : JValue) : Except Unit SsvcData :=
  match metric with
  | .dict es =>
    let other := (jlookup es "other").getD (.dict [])
    match other with
    | .dict oes =>
      let content := (jlookup oes "content").getD (.dict [])
      let st1 :=
        match content with
        | .dict ces =>
          let options := (jlookup ces "options").getD (.list [])
          let stO :=
            match options with
            | .list os => os.foldl ssvcOfOption st
            | _ => st
          match jlookup ces "id" with
          | some v => {stO with cveId := some v}
          | none => stO
        | _ => st
      let isKev :=
        match jlookup oes "type" with
        | some v => jeq v (.str "kev")
        | none => false
      if isKev then
        match content with
        | .dict ces =>
          .ok {st1 with kevEntry := some (.str "kev"),
                        kevDate := some ((jlookup ces "dateAdded").getD (.str ""))}
        | _ => .error ()
      else .ok st1
    | _ => .ok st
  | _ => .ok st

/-- Lines 87-114: fold `ssvcOfMetric` over a list of metrics; anything
that is not a list yields the empty record. -/
def find_ssvc_data : JValue → Except Unit SsvcData
  | .list xs => xs.foldlM ssvcOfMetric ssvcEmpty
  | _ => .ok ssvcEmpty

def cweOfDescs : List JValue → Option (JValue × JValue)
  | [] => none
  | .dict es :: rest =>
    let cid := (jlookup es "cweId").getD (.str "")
    let cdesc := (jlookup es "description").getD (.str "")
    if pyTruthy cid then some (cid, cdesc) else cweOfDescs rest
  | _ :: rest => cweOfDescs rest

def cweOfPts : List JValue → Option (JValue × JValue)
  | [] => none
  | .dict es :: rest =>
    (match (jlookup es "descriptions").getD (.list []) with
     | .list ds =>
       match cweOfDescs ds with
       | some r => some r
       | none => cweOfPts rest
     | _ => cweOfPts rest)
  | _ :: rest => cweOfPts rest

/-- Lines 116-130: first description with a truthy `cweId` across the
problem types; `("", "")` when none. -/
def find_cwe_data (pts : JValue) : JValue × JValue :=
  match pts with
  | .list xs => (cweOfPts xs).getD (.str "", .str "")
  | _ => (.str "", .str "")

/-- The mutable `result` dict of `parse_cve_json` (lines 137-156), minus
the two constant columns. -/
structure CveRow where
  cve_id : JValue
  cisa_cvss_base_score : JValue
  cisa_cvss_base_severity : JValue
  cisa_cvss_vector_string : JValue
  cisa_cvss_version : JValue
  cwe_id : JValue
  cwe_description : JValue
  ssvc_exploitation : JValue
  ssvc_automatable : JValue
  ssvc_impact : JValue
  kev_entry : JValue
  kev_date : JValue
  cna_cvss_base_score : JValue
  cna_cvss_base_severity : JValue
  cna_cvss_vector_string : JValue
  cna_cvss_version : JValue

/-- Lines 159-180, one element of the `adp` list: CISA CVSS fields when a
truthy CVSS entry is found, SSVC fields assigned unconditionally from
this element's metrics, CWE fields when the found `cweId` is truthy. -/
def adpStep (st : CveRow) (adp : JValue) : Except Unit CveRow :=
  match adp with
  | .dict es => do
    let metrics := (jlookup es "metrics").getD (.list [])
    let st1 ←
      match find_cvss_data metrics with
      | some kv =>
        if pyTruthy kv.2 then do
          let sc ← safe_get kv.2 [.str "baseScore"] (.str "")
          let sev ← safe_get kv.2 [.str "baseSeverity"] (.str "")
          let vec ← safe_get kv.2 [.str "vectorString"] (.str "")
          let ver ← safe_get kv.2 [.str "version"] (.str "")
          pure {st with cisa_cvss_base_score := .str (pyStr sc),
                        cisa_cvss_base_severity := sev,
                        cisa_cvss_vector_string := vec,
                        cisa_cvss_version := ver}
        else pure st
      | none => pure st
    let sdata ← find_ssvc_data metrics
    let st2 := {st1 with ssvc_exploitation := sdata.exploitation.getD (.str ""),
                         ssvc_automatable := sdata.automatable.getD (.str ""),
                         ssvc_impact := sdata.impact.getD (.str ""),
                         kev_entry := sdata.kevEntry.getD (.str ""),
                         kev_date := sdata.kevDate.getD (.str "")}
    let cw := find_cwe_data ((jlookup es "problemTypes").getD (.list []))
    if pyTruthy cw.1 then
      pure {st2 with cwe_id := cw.1, cwe_description := cw.2}
    else pure st2
  | _ => pure st

/-- Lines 132-197, on a successfully loaded JSON document: initial row,
fold over `containers.adp`, then the `containers.cna` pass (CNA CVSS
fields; CWE fallback only when the row's `cwe_id` is still falsy, then
assigned unconditionally). -/
def parse_cve_json (data : JValue) : Except Unit CveRow := do
  let cve_id ← safe_get data [.str "cveMetadata", .str "cveId"] (.str "")
  let st0 : CveRow :=
    ⟨cve_id, .str "", .str "", .str "", .str "", .str "", .str "", .str "",
     .str "", .str "", .str "", .str "", .str "", .str "", .str "", .str ""⟩
  let containers ← safe_get data [.str "containers"] (.dict [])
  let adp_list ← safe_get containers [.str "adp"] (.list [])
  let st1 ←
    match adp_list with
    | .list xs => xs.foldlM adpStep st0
    | _ => pure st0
  let cna ← safe_get containers [.str "cna"] (.dict [])
  match cna with
  | .dict ces => do
    let metrics := (jlookup ces "metrics").getD (.list [])
    let st2 ←
      match find_cvss_data metrics with
      | some kv =>
        if pyTruthy kv.2 then do
          let sc ← safe_get kv.2 [.str "baseScore"] (.str "")
          let sev ← safe_get kv.2 [.str "baseSeverity"] (.str "")
          let vec ← safe_get kv.2 [.str "vectorString"] (.str "")
          let ver ← safe_get kv.2 [.str "version"] (.str "")
          pure {st1 with cna_cvss_base_score := .str (pyStr sc),
                         cna_cvss_base_severity := sev,
                         cna_cvss_vector_string := vec,
                         cna_cvss_version := ver}
        else pure st1
      | none => pure st1
    if pyTruthy st2.cwe_id then pure st2
    else
      let cw := find_cwe_data ((jlookup ces "problemTypes").getD (.list []))
      pure {st2 with cwe_id := cw.1, cwe_description := cw.2}
  | _ => pure st1

/-- Column header written at line 221 (list of lines 199-218). -/
def headerCells : List String :=
  ["cve_id", "cisa_cvss_base_score", "cisa_cvss_base_severity",
   "cisa_cvss_vector_string", "cisa_cvss_version", "cwe_id",
   "cwe_description", "ssvc_exploitation", "ssvc_automatable",
   "ssvc_impact", "kev_entry", "kev_date", "cna_cvss_base_score",
   "cna_cvss_base_severity", "cna_cvss_vector_string", "cna_cvss_version",
   "cisa_adp", "vulnrichment"]

/-- The 18 cells written for one row (lines 238-258), each through
Python `str()`, with the two constant columns of lines 154-155. -/
def rowCells (r : CveRow) : List String :=
  [pyStr r.cve_id, pyStr r.cisa_cvss_base_score,
   pyStr r.cisa_cvss_base_severity, pyStr r.cisa_cvss_vector_string,
   pyStr r.cisa_cvss_version, pyStr r.cwe_id, pyStr r.cwe_description,
   pyStr r.ssvc_exploitation, pyStr r.ssvc_automatable,
   pyStr r.ssvc_impact, pyStr r.kev_entry, pyStr r.kev_date,
   pyStr r.cna_cvss_base_score, pyStr r.cna_cvss_base_severity,
   pyStr r.cna_cvss_vector_string, pyStr r.cna_cvss_version,
   "CISA ADP", "Vulnrichment"]

/-- QUOTE_MINIMAL of `csv.writer` (line 220): a field is quoted exactly
when it contains the delimiter, the quote character or a line-terminator
character, with embedded quotes doubled. -/
def csvNeedsQuote (s : String) : Bool :=
  sContainsChar s ',' || sContainsChar s '"' || sContainsChar s '\n' || sContainsChar s '\r'

def csvField (s : String) : String :=
  if csvNeedsQuote s then "\"" ++ String.mk (escQuotes s.data) ++ "\"" else s

/-- One CSV record with the default `\r\n` line terminator. -/
def csvLine (cells : List String) : String :=
  joinComma (cells.map csvField) ++ "\r\n"

/-! The raw dataset on disk.  `csv_from_vulnrichment` walks
`repo_dir` / year directories / sub-directories / `CVE-*.json` files; a
directory listing is a list in the arbitrary order the filesystem reports
(each `sorted(...)` call then orders it by name).  A file entry carries
`none` when reading or JSON-parsing it would fail (including a directory
whose name matches the glob, which `open` refuses). -/

structure FileEnt where
  fname : String
  fIsDir : Bool
  fdata : Option JValue

structure SubDir where
  sname : String
  sIsDir : Bool
  sfiles : List FileEnt

structure YearDir where
  yname : String
  yIsDir : Bool
  ysubs : List SubDir

/-- Name pattern of `subdir.glob('CVE-*.json')` (line 230). -/
def globCve (n : String) : Bool :=
  sStartsWith n "CVE-" && sEndsWith n ".json"

/-- Insert `x` into `l` before the first element it compares `le` to:
the insertion step of a stable insertion sort. -/
def insertSorted {α : Type} (le : α → α → Bool) (x : α) : List α → List α
  | [] => [x]
  | y :: ys => if le x y then x :: y :: ys else y :: insertSorted le x ys

/-- Stable structural sort; stable sorting is uniquely determined by the
comparison, so this is exactly Python `sorted(...)`. -/
def stableSort {α : Type} (le : α → α → Bool) : List α → List α
  | [] => []
  | x :: xs => insertSorted le x (stableSort le xs)

/-- Python `sorted(...)` over directory entries: lexical order on names
(the names within one directory are distinct). -/
def sortByName {α : Type} (key : α → String) (l : List α) : List α :=
  stableSort (fun a b => sLe (key a) (key b)) l

/-- Lines 231-258, one matched file: its 18 cells, or `none` when
`parse_cve_json` reported an error entry (lines 234-237). -/
def fileRow (fe : FileEnt) : Option (List String) :=
  if fe.fIsDir then none
  else
    match fe.fdata with
    | none => none
    | some data =>
      match parse_cve_json data with
      | .ok r => some (rowCells r)
      | .error _ => none

/-- Lines 230-258: the encoded CSV records of one sub-directory, its
matching files in lexical order. -/
def rowsOfSub (s : SubDir) : List String :=
  ((sortByName FileEnt.fname (s.sfiles.filter (fun fe => globCve fe.fname))).filterMap
      fileRow).map csvLine

/-- Lines 227-229: sub-directories of one year directory in lexical
order. -/
def rowsOfYear (y : YearDir) : List String :=
  (sortByName SubDir.sname (y.ysubs.filter SubDir.sIsDir)).flatMap rowsOfSub

/-- Lines 219-258: the full produced CSV text — header record followed by
the records of the year directories in lexical order. -/
def csvFromVulnrichment (repo : List YearDir) : String :=
  sConcat
    (csvLine headerCells ::
      (sortByName YearDir.yname (repo.filter YearDir.yIsDir)).flatMap rowsOfYear)

/-- Order-free canonical form of one sub-directory: keep only the
glob-matched files, lexically sorted. -/
def canonSub (s : SubDir) : SubDir :=
  ⟨s.sname, s.sIsDir,
   sortByName FileEnt.fname (s.sfiles.filter (fun fe => globCve fe.fname))⟩

/-- Order-free canonical form of one year directory. -/
def canonYear (y : YearDir) : YearDir :=
  ⟨y.yname, y.yIsDir,
   sortByName SubDir.sname ((y.ysubs.filter SubDir.sIsDir).map canonSub)⟩

/-- Order-free canonical form of the dataset: two listings of an
unchanged on-disk tree (reported in different orders across runs) have
the same canonical form. -/
def canonRepoListing (repo : List YearDir) : List YearDir :=
  sortByName YearDir.yname ((repo.filter YearDir.yIsDir).map canonYear)

/-- Names are distinct within every directory level, as holds of any real
filesystem tree. -/
abbrev GoodRepo (repo : List YearDir) : Prop :=
  ((repo.filter YearDir.yIsDir).map YearDir.yname).Nodup ∧
    ∀ y ∈ repo,
      ((y.ysubs.filter SubDir.sIsDir).map SubDir.sname).Nodup ∧
        ∀ s ∈ y.ysubs,
          ((s.sfiles.filter (fun fe => globCve fe.fname)).map FileEnt.fname).Nodup

/-- A concrete raw dataset listing: one year directory holding one
sub-directory with two CVE files (one of them unparseable), and one empty
year directory. -/
def wFileA : FileEnt :=
  ⟨"CVE-2024-0001.json", false,
   some (.dict [("cveMetadata", .dict [("cveId", .str "CVE-2024-0001")])])⟩

def wFileB : FileEnt := ⟨"CVE-2024-0002.json", false, none⟩

def wSub1 : SubDir := ⟨"0xxx", true, [wFileA, wFileB]⟩

/-- The same sub-directory with its files listed in the other order. -/
def wSub1R : SubDir := ⟨"0xxx", true, [wFileB, wFileA]⟩

def wYearA : YearDir := ⟨"2024", true, [wSub1]⟩

def wYearAR : YearDir := ⟨"2024", true, [wSub1R]⟩

def wYearB : YearDir := ⟨"2025", true, []⟩

def wRepo1 : List YearDir := [wYearA, wYearB]

/-- The same on-disk dataset as `wRepo1`, listed in a different order at
every level. -/
def wRepo2 : List YearDir := [wYearB, wYearAR]

/-! ### Log retention (download_cpes.py lines 198-204,
epss_scores_download.py lines 140-147, cisa_vulnrichment_download.py
lines 328-334)

Each pipeline ends a run with `logs = sorted([matching names],
reverse=True)` followed by deletion of `logs[keep:]` (keep is 3, 3 and 5
respectively).  The model tracks the matching log-file names of the log
directory; `pruneKeep` is the set that survives one pruning. -/

def sortDescStr (l : List String) : List String :=
  stableSort (fun a b => sLe b a) l

/-- Names surviving one prune: sort descending, delete all but the first
`keep`. -/
def pruneKeep (names : List String) (keep : Nat) : List String :=
  (sortDescStr names).take keep

/-- Log files present after a sequence of runs, each appending its own
timestamped log file and then pruning. -/
def logsAfterRuns (names : List String) (keep : Nat) : List String :=
  names.foldl (fun st n => pruneKeep (st ++ [n]) keep) []

/-! ### Helper lemmas -/

mutual

theorem jeq_refl : ∀ a, jeq a a = true
  | .null => rfl
  | .bool b => by simp [jeq]
  | .num s => by simp [jeq]
  | .str s => by simp [jeq]
  | .list xs => by simpa [jeq] using jeqList_refl xs
  | .dict es => by simpa [jeq] using jeqEntries_refl es

theorem jeqList_refl : ∀ xs, jeqList xs xs = true
  | [] => rfl
  | x :: xs => by simp [jeqList, jeq_refl x, jeqList_refl xs]

theorem jeqEntries_refl : ∀ es, jeqEntries es es = true
  | [] => rfl
  | (k, v) :: es => by simp [jeqEntries, jeq_refl v, jeqEntries_refl es]

end

theorem fsGet_filter_ne (l : Fs) (p q : String) (h : ¬ q = p) :
    fsGet (l.filter (fun kv => !(kv.1 = p))) q = fsGet l q := by
  induction l with
  | nil => rfl
  | cons kv t ih =>
    obtain ⟨k, c⟩ := kv
    by_cases hk : k = p
    · subst hk
      have hkq : ¬ k = q := fun heq => h (heq ▸ rfl)
      simp [List.filter_cons, fsGet, hkq, ih]
    · by_cases hq : k = q
      · subst hq
        simp [List.filter_cons, hk, fsGet, h]
      · simp [List.filter_cons, hk, fsGet, hq, ih]

theorem fsGet_fsSet_self (l : Fs) (p : String) (c : FContent) :
    fsGet (fsSet l p c) p = some c := by
  simp [fsSet, fsGet]

theorem fsGet_fsSet_ne (l : Fs) (p : String) (c : FContent) (q : String)
    (h : ¬ q = p) : fsGet (fsSet l p c) q = fsGet l q := by
  have hpq : ¬ p = q := fun heq => h heq.symm
  simp [fsSet, fsGet, hpq, fsGet_filter_ne l p q h]

theorem fsGet_fsRemove_ne (l : Fs) (p q : String) (h : ¬ q = p) :
    fsGet (fsRemove l p) q = fsGet l q :=
  fsGet_filter_ne l p q h

/-! ### Claim theorems for the EPSS pipeline -/

/-- C9: when the dated compressed file for the requested date already
exists in the data directory, the run exits with status 0 at once and the
data directory is left exactly as it was — nothing is created, modified
or removed, the canonical compressed artifact included — and no fetch is
attempted. -/
theorem c9_existing_dated_file_short_circuits (fs : Fs) (dateStr : String)
    (resp : HttpResp) (compressOk : Bool) (c : FContent)
    (hex : fsGet fs (epssOutGz dateStr) = some c) :
    epssMain fs dateStr resp compressOk = ⟨0, fs, 0⟩ := by
  simp [epssMain, hex]

theorem c9_existing_dated_file_short_circuits_witness :
    fsGet [(epssOutGz "2025-01-01", FContent.gzData ["cve,epss"])]
        (epssOutGz "2025-01-01") = some (FContent.gzData ["cve,epss"]) ∧
      epssMain [(epssOutGz "2025-01-01", FContent.gzData ["cve,epss"])]
        "2025-01-01" (.okResp ["x"]) true =
        ⟨0, [(epssOutGz "2025-01-01", FContent.gzData ["cve,epss"])], 0⟩ :=
  ⟨by simp [fsGet],
   c9_existing_dated_file_short_circuits _ _ _ _ (FContent.gzData ["cve,epss"])
     (by simp [fsGet])⟩

/-- C5: a permanent error (HTTP 404 on the dated resource) fails the run
immediately with exit status 1 (non-zero), after exactly one fetch
attempt and with the data directory untouched — there is no retry. -/
theorem c5_permanent_error_fails_without_retry (fs : Fs) (dateStr : String)
    (compressOk : Bool) (habs : fsGet fs (epssOutGz dateStr) = none) :
    epssMain fs dateStr .notFound compressOk = ⟨1, fs, 1⟩ ∧ (1 : Nat) ≠ 0 := by
  refine ⟨?_, by omega⟩
  simp [epssMain, habs]

theorem c5_permanent_error_fails_without_retry_witness :
    fsGet [] (epssOutGz "2025-03-04") = none ∧
      epssMain [] "2025-03-04" .notFound true = ⟨1, [], 1⟩ :=
  ⟨rfl, (c5_permanent_error_fails_without_retry [] "2025-03-04" true rfl).1⟩

/-- C2 counterexample: with a compressed canonical artifact left by a
previous successful run, a run whose compression step fails does NOT
leave that previous artifact authoritative — `tarfile.open(..., "w:gz")`
truncates it at the canonical archive path before the new archive is
complete, so after the failure the path holds a partial file instead of
the previous archive. -/
theorem c2_previous_archive_destroyed_counterexample :
    (epssMain [(epssCanonTarGz, FContent.tarArchive "epss_scores.csv" ["old,1"])]
        "2025-01-02" (.okResp ["new,2"]) false).exit ≠ 0 ∧
      fsGet (epssMain [(epssCanonTarGz, FContent.tarArchive "epss_scores.csv" ["old,1"])]
          "2025-01-02" (.okResp ["new,2"]) false).fs epssCanonTarGz ≠
        some (FContent.tarArchive "epss_scores.csv" ["old,1"]) := by
  constructor
  · decide
  · decide

/-- C2 (amended): if the compression step fails, the run fails with a
non-zero exit status and the uncompressed canonical file is not removed;
the previous run's compressed canonical artifact, however, does not
survive — the canonical archive path holds the truncated partial file of
the failed compression, because the archive is written directly at the
canonical path rather than produced aside and swapped in. -/
theorem c2_compression_failure_keeps_uncompressed (fs : Fs) (dateStr : String)
    (body : List String)
    (habs : fsGet fs (epssOutGz dateStr) = none) :
    (epssMain fs dateStr (.okResp body) false).exit = 1 ∧
      (epssMain fs dateStr (.okResp body) false).exit ≠ 0 ∧
      fsGet (epssMain fs dateStr (.okResp body) false).fs epssCanon =
        some (.text (body.filter (fun l => !sStartsWith l "#"))) ∧
      fsGet (epssMain fs dateStr (.okResp body) false).fs epssCanonTarGz =
        some .partialFile := by
  have hne : ¬ epssCanon = epssCanonTarGz := by decide
  simp only [epssMain, habs, Option.isSome_none, Bool.false_eq_true, if_false,
    compressAndSwap, if_neg (Bool.false_ne_true)]
  refine ⟨trivial, by omega, ?_, ?_⟩
  · rw [fsGet_fsSet_ne _ _ _ _ hne]
    exact fsGet_fsSet_self _ _ _
  · exact fsGet_fsSet_self _ _ _

theorem c2_compression_failure_keeps_uncompressed_witness :
    fsGet [] (epssOutGz "2025-01-02") = none ∧
      fsGet (epssMain [] "2025-01-02" (.okResp ["#c", "r,1"]) false).fs epssCanon =
        some (.text ["r,1"]) :=
  ⟨rfl, by
    have h := (c2_compression_failure_keeps_uncompressed [] "2025-01-02"
      ["#c", "r,1"] rfl).2.2.1
    have e : List.filter (fun l => !sStartsWith l "#") ["#c", "r,1"] = ["r,1"] := by
      decide
    rw [e] at h
    exact h⟩

/-! ### Claim theorems for safe_get -/

/-- C3 counterexample: `safe_get` CAN raise.  On a three-element list with
the single key `-5`, the guard `len(result) > key` holds (`3 > -5`), so
`result[-5]` is evaluated and raises `IndexError`, escaping `safe_get`. -/
theorem c3_safe_get_raises_counterexample :
    safe_get (.list [.str "a", .str "b", .str "c"]) [.idx (-5)] (.str "") =
      .error () := rfl

/-- C3 (amended): for every value, every declared default and every key
sequence whose integer indices are non-negative, `safe_get` never raises,
and whenever any step of the descent finds an absent key, a container of
the wrong type, or an out-of-range index, it returns the declared
default.  (As stated over all key sequences the claim fails: a negative
index below `-len` raises `IndexError`, see the counterexample.) -/
theorem c3_safe_get_total_for_nonneg_keys (keys : List JKey) :
    ∀ (data d : JValue), (∀ k ∈ keys, keyNonneg k) →
      (∃ r, safe_get data keys d = .ok r) ∧
        (descendPath data keys = none → safe_get data keys d = .ok d) := by
  induction keys with
  | nil =>
    intro data d _
    exact ⟨⟨_, rfl⟩, fun h => by simp [descendPath] at h⟩
  | cons k ks ih =>
    intro data d hnn
    have hk : keyNonneg k := hnn k (List.mem_cons_self k ks)
    have hks : ∀ k2 ∈ ks, keyNonneg k2 := fun k2 hm => hnn k2 (List.mem_cons_of_mem k hm)
    cases data with
    | dict es =>
      cases k with
      | str s =>
        cases hjl : jlookup es s with
        | none =>
          refine ⟨⟨d, ?_⟩, fun _ => ?_⟩ <;> simp [safe_get, hjl, jeq_refl]
        | some r =>
          cases hjeq : jeq r d with
          | true =>
            refine ⟨⟨d, ?_⟩, fun _ => ?_⟩ <;> simp [safe_get, hjl, hjeq]
          | false =>
            constructor
            · have h1 := (ih r d hks).1
              simpa [safe_get, hjl, hjeq] using h1
            · intro hdp
              have hdp2 : descendPath r ks = none := by
                simpa [descendPath, hjl] using hdp
              have h2 := (ih r d hks).2 hdp2
              simpa [safe_get, hjl, hjeq] using h2
      | idx i =>
        refine ⟨⟨d, ?_⟩, fun _ => ?_⟩ <;> simp [safe_get]
    | list l =>
      cases k with
      | str s =>
        refine ⟨⟨d, ?_⟩, fun _ => ?_⟩ <;> simp [safe_get]
      | idx i =>
        have hi : 0 ≤ i := hk
        by_cases hlt : i < (l.length : Int)
        · have hnat : i.toNat < l.length := by omega
          cases hget : l[i.toNat]? with
          | none =>
            rw [List.getElem?_eq_getElem hnat] at hget
            simp at hget
          | some v =>
            cases hjeq : jeq v d with
            | true =>
              refine ⟨⟨d, ?_⟩, fun _ => ?_⟩ <;>
                simp [safe_get, hlt, pyListIdx, hi, hget, hjeq]
            | false =>
              have hgd : l.getD i.toNat .null = v := by
                simp [List.getD_eq_getElem?_getD, hget]
              constructor
              · have h1 := (ih v d hks).1
                simpa [safe_get, hlt, pyListIdx, hi, hget, hjeq] using h1
              · intro hdp
                have hdp2 : descendPath v ks = none := by
                  rw [← hgd]
                  simpa [descendPath, hi, hlt] using hdp
                have h2 := (ih v d hks).2 hdp2
                simpa [safe_get, hlt, pyListIdx, hi, hget, hjeq] using h2
        · refine ⟨⟨d, ?_⟩, fun _ => ?_⟩ <;> simp [safe_get, hlt]
    | null => refine ⟨⟨d, ?_⟩, fun _ => ?_⟩ <;> simp [safe_get]
    | bool b => refine ⟨⟨d, ?_⟩, fun _ => ?_⟩ <;> simp [safe_get]
    | num s => refine ⟨⟨d, ?_⟩, fun _ => ?_⟩ <;> simp [safe_get]
    | str s => refine ⟨⟨d, ?_⟩, fun _ => ?_⟩ <;> simp [safe_get]

theorem c3_safe_get_total_for_nonneg_keys_witness :
    (∀ k ∈ [JKey.str "missing"], keyNonneg k) ∧
      ((∃ r, safe_get (.dict [("a", .str "x")]) [JKey.str "missing"] (.str "") = .ok r) ∧
        (descendPath (.dict [("a", .str "x")]) [JKey.str "missing"] = none →
          safe_get (.dict [("a", .str "x")]) [JKey.str "missing"] (.str "") =
            .ok (.str ""))) :=
  ⟨by decide,
   c3_safe_get_total_for_nonneg_keys [JKey.str "missing"]
     (.dict [("a", .str "x")]) (.str "") (by decide)⟩

/-- C10: when descending through a non-empty prefix of the keys reaches an
intermediate value equal to the declared default — including a
legitimately present field whose value happens to equal the default —
`safe_get` returns the default at once and the remaining keys are never
applied (the conclusion holds for EVERY continuation of the key path). -/
theorem c10_default_short_circuits (keys₁ : List JKey) :
    ∀ (data d : JValue) (keys₂ : List JKey), keys₁ ≠ [] →
      descendPath data keys₁ = some d →
      safe_get data (keys₁ ++ keys₂) d = .ok d := by
  induction keys₁ with
  | nil => intro data d keys₂ hne _; exact absurd rfl hne
  | cons k rest ih =>
    intro data d keys₂ _ hdp
    cases data with
    | dict es =>
      cases k with
      | str s =>
        cases hjl : jlookup es s with
        | none => simp [descendPath, hjl] at hdp
        | some r =>
          have hdp2 : descendPath r rest = some d := by
            simpa [descendPath, hjl] using hdp
          cases hjeq : jeq r d with
          | true => simp [safe_get, hjl, hjeq]
          | false =>
            have hrest : rest ≠ [] := by
              intro h
              subst h
              simp [descendPath] at hdp2
              subst hdp2
              simp [jeq_refl] at hjeq
            have h3 := ih r d keys₂ hrest hdp2
            simpa [safe_get, hjl, hjeq] using h3
      | idx i => simp [descendPath] at hdp
    | list l =>
      cases k with
      | str s => simp [descendPath] at hdp
      | idx i =>
        by_cases hg : 0 ≤ i ∧ i < (l.length : Int)
        · have hnat : i.toNat < l.length := by omega
          cases hget : l[i.toNat]? with
          | none =>
            rw [List.getElem?_eq_getElem hnat] at hget
            simp at hget
          | some v =>
            have hgd : l.getD i.toNat .null = v := by
              simp [List.getD_eq_getElem?_getD, hget]
            have hdp2 : descendPath v rest = some d := by
              rw [← hgd]
              simpa [descendPath, hg] using hdp
            cases hjeq : jeq v d with
            | true => simp [safe_get, hg.2, pyListIdx, hg.1, hget, hjeq]
            | false =>
              have hrest : rest ≠ [] := by
                intro h
                subst h
                simp [descendPath] at hdp2
                subst hdp2
                simp [jeq_refl] at hjeq
              have h3 := ih v d keys₂ hrest hdp2
              simpa [safe_get, hg.2, pyListIdx, hg.1, hget, hjeq] using h3
        · simp [descendPath, hg] at hdp
    | null => simp [descendPath] at hdp
    | bool b => simp [descendPath] at hdp
    | num s => simp [descendPath] at hdp
    | str s => simp [descendPath] at hdp

theorem c10_default_short_circuits_witness :
    descendPath (.dict [("a", .str "")]) [JKey.str "a"] = some (.str "") ∧
      safe_get (.dict [("a", .str "")]) ([JKey.str "a"] ++ [JKey.str "b"])
        (.str "") = .ok (.str "") :=
  ⟨rfl,
   c10_default_short_circuits [JKey.str "a"] (.dict [("a", .str "")])
     (.str "") [JKey.str "b"] (List.cons_ne_nil _ _) rfl⟩

/-! ### Claim theorems for the CPE pipeline -/

/-- C4: a page whose fetches fail transiently is retried up to the
ceiling of `MAX_RETRIES = 5` attempts, the wait before the retry after
attempt number `n` (1-based) is `5 * n` seconds — linearly increasing
backoff with base delay 5 — and when all five attempts fail the run
aborts with the non-zero exit status 2. -/
theorem c4_transient_retry_policy (f : Nat → Nat → Bool) (page m : Nat)
    (hm : m ≤ MAX_RETRIES) (hfail : ∀ a, a < m → f page a = false) :
    (m = MAX_RETRIES →
      pageAttempts f page =
        ([.request page 0, .sleepSec 5, .request page 1, .sleepSec 10,
          .request page 2, .sleepSec 15, .request page 3, .sleepSec 20,
          .request page 4, .exitCode 2], false) ∧ (2 : Nat) ≠ 0) ∧
    (m < MAX_RETRIES → f page m = true →
      pageAttempts f page =
        ((List.range m).flatMap
            (fun a => [.request page a, .sleepSec (5 * (a + 1))]) ++
          [.request page m, .writePageFile page, .writeCheckpoint (page + 1)],
         true)) := by
  constructor
  · intro hm5
    refine ⟨?_, by omega⟩
    subst hm5
    have h0 : f page 0 = false := hfail 0 (by decide)
    have h1 : f page 1 = false := hfail 1 (by decide)
    have h2 : f page 2 = false := hfail 2 (by decide)
    have h3 : f page 3 = false := hfail 3 (by decide)
    have h4 : f page 4 = false := hfail 4 (by decide)
    simp [pageAttempts, MAX_RETRIES, attemptsGo, h0, h1, h2, h3, h4]
  · intro hlt hsucc
    have hm5 : MAX_RETRIES = 5 := rfl
    rw [hm5] at hlt
    interval_cases m
    · simp [pageAttempts, MAX_RETRIES, attemptsGo, hsucc]
    · simp [pageAttempts, MAX_RETRIES, attemptsGo, hsucc,
        hfail 0 (by omega), List.range_succ]
    · simp [pageAttempts, MAX_RETRIES, attemptsGo, hsucc,
        hfail 0 (by omega), hfail 1 (by omega), List.range_succ]
    · simp [pageAttempts, MAX_RETRIES, attemptsGo, hsucc,
        hfail 0 (by omega), hfail 1 (by omega), hfail 2 (by omega),
        List.range_succ]
    · simp [pageAttempts, MAX_RETRIES, attemptsGo, hsucc,
        hfail 0 (by omega), hfail 1 (by omega), hfail 2 (by omega),
        hfail 3 (by omega), List.range_succ]

theorem c4_transient_retry_policy_witness :
    pageAttempts (fun _ _ => false) 0 =
      ([.request 0 0, .sleepSec 5, .request 0 1, .sleepSec 10,
        .request 0 2, .sleepSec 15, .request 0 3, .sleepSec 20,
        .request 0 4, .exitCode 2], false) :=
  ((c4_transient_retry_policy (fun _ _ => false) 0 5 (by decide)
      (fun _ _ => rfl)).1 rfl).1

/-- C1 (code bug): the checkpoint cannot make a rerun resume.  The
checkpoint file lives inside `tempfile.mkdtemp(...)` — a directory with a
fresh unique name created by each run — so a rerun looks for
`checkpoint.txt` inside its own new empty temp directory, finds nothing,
starts at page 0 and refetches pages 0..k.  Here the interrupted run left
a checkpoint recording pages 0..2 as complete (content `3`), yet the
rerun's start page is 0, not 3, and its trace requests pages 0, 1 and 2
again. -/
theorem c1_rerun_restarts_from_page_zero :
    cpesStartPage [(checkpointPath "data/tmpa1b2c3", "3")] "data/tmpz9y8x7" = 0 ∧
      ¬ cpesStartPage [(checkpointPath "data/tmpa1b2c3", "3")] "data/tmpz9y8x7" = 3 ∧
      Ev.request 0 0 ∈
        cpesRunTrace [(checkpointPath "data/tmpa1b2c3", "3")] "data/tmpz9y8x7"
          (fun _ _ => true) 5 ∧
      Ev.request 1 0 ∈
        cpesRunTrace [(checkpointPath "data/tmpa1b2c3", "3")] "data/tmpz9y8x7"
          (fun _ _ => true) 5 ∧
      Ev.request 2 0 ∈
        cpesRunTrace [(checkpointPath "data/tmpa1b2c3", "3")] "data/tmpz9y8x7"
          (fun _ _ => true) 5 := by
  decide

theorem precededBy_of_not_mem {q p : Ev} {l : List Ev} (h : q ∉ l) :
    PrecededBy q p l := by
  intro i hi
  exact absurd (List.get?_mem hi) h

theorem precededBy_cons {q p e : Ev} {l : List Ev} (hne : ¬ e = q)
    (h : PrecededBy q p l) : PrecededBy q p (e :: l) := by
  intro i hi
  cases i with
  | zero =>
    simp only [List.get?_cons_zero, Option.some_inj] at hi
    exact absurd hi hne
  | succ n =>
    have hi2 : l.get? n = some q := by simpa using hi
    obtain ⟨j, hj, hjp⟩ := h n hi2
    exact ⟨j + 1, by omega, by simpa using hjp⟩

theorem precededBy_append {q p : Ev} {l₁ l₂ : List Ev}
    (h₁ : PrecededBy q p l₁) (h₂ : PrecededBy q p l₂) :
    PrecededBy q p (l₁ ++ l₂) := by
  intro i hi
  by_cases hlen : i < l₁.length
  · rw [List.get?_append hlen] at hi
    obtain ⟨j, hj, hjp⟩ := h₁ i hi
    refine ⟨j, hj, ?_⟩
    rw [List.get?_append (by omega)]
    exact hjp
  · push_neg at hlen
    rw [List.get?_append_right hlen] at hi
    obtain ⟨j, hj, hjp⟩ := h₂ (i - l₁.length) hi
    refine ⟨l₁.length + j, by omega, ?_⟩
    rw [List.get?_append_right (by omega)]
    have he : l₁.length + j - l₁.length = j := by omega
    rw [he]
    exact hjp

theorem attemptsGo_checkpoint_after_payload (f : Nat → Nat → Bool)
    (page k : Nat) : ∀ (rem a : Nat),
      PrecededBy (.writeCheckpoint (k + 1)) (.writePageFile k)
        (attemptsGo f page a rem).1 := by
  intro rem
  induction rem with
  | zero =>
    intro a
    exact precededBy_of_not_mem (by simp [attemptsGo])
  | succ rem ih =>
    intro a
    cases hf : f page a with
    | true =>
      intro i hi
      rcases i with _ | _ | _ | n
      · simp [attemptsGo, hf] at hi
      · simp [attemptsGo, hf] at hi
      · simp only [attemptsGo, hf, if_true] at hi
        simp only [List.get?_cons_succ, List.get?_cons_zero, Option.some_inj] at hi
        have hk : k = page := by
          cases hi
          omega
        refine ⟨1, by omega, ?_⟩
        simp [attemptsGo, hf, hk]
      · simp [attemptsGo, hf] at hi
    | false =>
      rcases Nat.eq_zero_or_pos rem with hr | hr
      · subst hr
        exact precededBy_of_not_mem (by simp [attemptsGo, hf])
      · have hrne : ¬ rem = 0 := by omega
        have step : (attemptsGo f page a (rem + 1)).1 =
            .request page a :: .sleepSec (5 * (a + 1)) ::
              (attemptsGo f page (a + 1) rem).1 := by
          simp [attemptsGo, hf, hrne]
        rw [step]
        exact precededBy_cons (by simp) (precededBy_cons (by simp) (ih (a + 1)))

theorem pagesTrace_checkpoint_after_payload (f : Nat → Nat → Bool) (k : Nat) :
    ∀ ps : List Nat,
      PrecededBy (.writeCheckpoint (k + 1)) (.writePageFile k) (pagesTrace f ps) := by
  intro ps
  induction ps with
  | nil => exact precededBy_of_not_mem (by simp [pagesTrace])
  | cons p rest ih =>
    cases hr : (pageAttempts f p).2 with
    | true =>
      have step : pagesTrace f (p :: rest) =
          (pageAttempts f p).1 ++
            .sleepSec SLEEP_BETWEEN_REQUESTS :: pagesTrace f rest := by
        simp [pagesTrace, hr]
      rw [step]
      exact precededBy_append
        (attemptsGo_checkpoint_after_payload f p k MAX_RETRIES 0)
        (precededBy_cons (by simp) ih)
    | false =>
      have step : pagesTrace f (p :: rest) = (pageAttempts f p).1 := by
        simp [pagesTrace, hr]
      rw [step]
      exact attemptsGo_checkpoint_after_payload f p k MAX_RETRIES 0

/-- C6: in every download trace of the paginated pipeline, any event
recording the checkpoint at `k+1` is strictly preceded by the event that
wrote page `k`'s raw payload to its per-unit file: the checkpoint never
records a page whose payload was only held in memory. -/
theorem c6_checkpoint_advanced_only_after_payload_written
    (f : Nat → Nat → Bool) (start total k : Nat) :
    PrecededBy (.writeCheckpoint (k + 1)) (.writePageFile k)
      (cpesDownloadTrace f start total) :=
  pagesTrace_checkpoint_after_payload f k (List.range' start (total - start))

/-! ### Order facts about lexicographic string comparison -/

theorem lexLe_refl : ∀ cs, lexLe cs cs = true
  | [] => rfl
  | c :: cs => by simp [lexLe, lexLe_refl cs]

theorem sLe_refl (s : String) : sLe s s = true := lexLe_refl s.data

theorem lexLe_total : ∀ as bs : List Char, lexLe as bs = true ∨ lexLe bs as = true := by
  intro as
  induction as with
  | nil => intro bs; exact Or.inl rfl
  | cons a as ih =>
    intro bs
    cases bs with
    | nil => exact Or.inr rfl
    | cons b bs =>
      rcases Nat.lt_trichotomy a.toNat b.toNat with h | h | h
      · left; simp [lexLe, h]
      · have h1 : ¬ a.toNat < b.toNat := by omega
        have h2 : ¬ b.toNat < a.toNat := by omega
        rcases ih bs with h3 | h3
        · left; simp [lexLe, h1, h2, h3]
        · right; simp [lexLe, h1, h2, h3]
      · right; simp [lexLe, h]

theorem lexLe_trans :
    ∀ as bs cs : List Char, lexLe as bs = true → lexLe bs cs = true →
      lexLe as cs = true := by
  intro as
  induction as with
  | nil => intro bs cs _ _; rfl
  | cons a as ih =>
    intro bs cs hab hbc
    cases bs with
    | nil => simp [lexLe] at hab
    | cons b bs =>
      cases cs with
      | nil => simp [lexLe] at hbc
      | cons c cs =>
        by_cases h1 : a.toNat < b.toNat
        · by_cases h2 : b.toNat < c.toNat
          · have h : a.toNat < c.toNat := by omega
            simp [lexLe, h]
          · by_cases h3 : c.toNat < b.toNat
            · simp [lexLe, h2, h3] at hbc
            · have h : a.toNat < c.toNat := by omega
              simp [lexLe, h]
        · by_cases h4 : b.toNat < a.toNat
          · simp [lexLe, h1, h4] at hab
          · have hab2 : lexLe as bs = true := by
              simpa [lexLe, h1, h4] using hab
            by_cases h2 : b.toNat < c.toNat
            · have h : a.toNat < c.toNat := by omega
              simp [lexLe, h]
            · by_cases h3 : c.toNat < b.toNat
              · simp [lexLe, h2, h3] at hbc
              · have hbc2 : lexLe bs cs = true := by
                  simpa [lexLe, h2, h3] using hbc
                have h5 : ¬ a.toNat < c.toNat := by omega
                have h6 : ¬ c.toNat < a.toNat := by omega
                simp [lexLe, h5, h6, ih bs cs hab2 hbc2]

theorem lexLe_antisymm :
    ∀ as bs : List Char, lexLe as bs = true → lexLe bs as = true → as = bs := by
  intro as
  induction as with
  | nil =>
    intro bs h1 h2
    cases bs with
    | nil => rfl
    | cons b bs => simp [lexLe] at h2
  | cons a as ih =>
    intro bs h1 h2
    cases bs with
    | nil => simp [lexLe] at h1
    | cons b bs =>
      by_cases hl : a.toNat < b.toNat
      · have hg : ¬ b.toNat < a.toNat := by omega
        simp [lexLe, hl, hg] at h2
      · by_cases hg : b.toNat < a.toNat
        · simp [lexLe, hl, hg] at h1
        · have heq : a.toNat = b.toNat := by omega
          have ha : a = b := Char.eq_of_val_eq (UInt32.toNat.inj heq)
          have h1a : lexLe as bs = true := by simpa [lexLe, hl, hg] using h1
          have h2a : lexLe bs as = true := by simpa [lexLe, hl, hg] using h2
          rw [ha, ih bs h1a h2a]

theorem sLe_trans (a b c : String) (h1 : sLe a b = true) (h2 : sLe b c = true) :
    sLe a c = true := lexLe_trans a.data b.data c.data h1 h2

theorem sLe_antisymm (a b : String) (h1 : sLe a b = true) (h2 : sLe b a = true) :
    a = b := by
  have hd : a.data = b.data := lexLe_antisymm a.data b.data h1 h2
  cases a with
  | mk da =>
    cases b with
    | mk db => rw [show da = db from hd]

theorem sLt_le {a b : String} (h : sLt a b = true) : sLe a b = true := by
  have h2 : ¬ sLe b a = true := by simpa [sLt] using h
  rcases lexLe_total a.data b.data with h3 | h3
  · exact h3
  · exact absurd h3 h2

theorem sLt_ne {a b : String} (h : sLt a b = true) : ¬ a = b := by
  intro heq
  subst heq
  simp [sLt, sLe_refl] at h

/-- Two lists sorted by the same antisymmetric relation on their keys,
that are permutations of each other and whose keys are distinct, are
equal.  This is what makes each `sorted(...)` call of the pipelines
deterministic in the listing order the filesystem happens to report. -/
theorem sorted_key_perm_eq {α : Type} (key : α → String)
    (r : String → String → Prop) (anti : ∀ x y, r x y → r y x → x = y) :
    ∀ {l₁ l₂ : List α}, l₁.Perm l₂ →
      l₁.Pairwise (fun a b => r (key a) (key b)) →
      l₂.Pairwise (fun a b => r (key a) (key b)) →
      (l₁.map key).Nodup → l₁ = l₂ := by
  intro l₁
  induction l₁ with
  | nil =>
    intro l₂ hp _ _ _
    exact (List.Perm.eq_nil hp.symm).symm
  | cons a t₁ ih =>
    intro l₂ hp hs₁ hs₂ hnd
    cases l₂ with
    | nil => exact absurd hp.eq_nil (by simp)
    | cons b t₂ =>
      obtain ⟨ha, hpt₁⟩ := List.pairwise_cons.mp hs₁
      obtain ⟨hb, hpt₂⟩ := List.pairwise_cons.mp hs₂
      have hndc : key a ∉ t₁.map key ∧ (t₁.map key).Nodup := by
        rw [List.map_cons, List.nodup_cons] at hnd
        exact hnd
      have hab : a = b := by
        by_cases h : a = b
        · exact h
        · exfalso
          have hbmem : b ∈ a :: t₁ := hp.mem_iff.mpr (List.mem_cons_self b t₂)
          have hamem : a ∈ b :: t₂ := hp.mem_iff.mp (List.mem_cons_self a t₁)
          have hbt₁ : b ∈ t₁ := by
            rcases List.mem_cons.mp hbmem with h1 | h1
            · exact absurd h1.symm h
            · exact h1
          have hat₂ : a ∈ t₂ := by
            rcases List.mem_cons.mp hamem with h1 | h1
            · exact absurd h1 h
            · exact h1
          have hk : key a = key b := anti _ _ (ha b hbt₁) (hb a hat₂)
          exact hndc.1 (hk ▸ List.mem_map_of_mem key hbt₁)
      subst hab
      rw [ih hp.cons_inv hpt₁ hpt₂ hndc.2]

theorem insertSorted_perm {α : Type} (le : α → α → Bool) (x : α) :
    ∀ l : List α, (insertSorted le x l).Perm (x :: l) := by
  intro l
  induction l with
  | nil => exact List.Perm.refl _
  | cons y ys ih =>
    by_cases hxy : le x y = true
    · simp [insertSorted, hxy]
    · simp only [insertSorted, if_neg hxy]
      exact (ih.cons y).trans (List.Perm.swap x y ys)

theorem stableSort_perm {α : Type} (le : α → α → Bool) :
    ∀ l : List α, (stableSort le l).Perm l := by
  intro l
  induction l with
  | nil => exact List.Perm.refl _
  | cons x xs ih =>
    exact (insertSorted_perm le x (stableSort le xs)).trans (ih.cons x)

theorem insertSorted_pairwise {α : Type} (le : α → α → Bool)
    (htrans : ∀ a b c, le a b = true → le b c = true → le a c = true)
    (htot : ∀ a b, (le a b || le b a) = true) (x : α) :
    ∀ l : List α, l.Pairwise (fun a b => le a b = true) →
      (insertSorted le x l).Pairwise (fun a b => le a b = true) := by
  intro l
  induction l with
  | nil => intro _; simp [insertSorted]
  | cons y ys ih =>
    intro h
    obtain ⟨hy, hys⟩ := List.pairwise_cons.mp h
    by_cases hxy : le x y = true
    · simp only [insertSorted, if_pos hxy]
      rw [List.pairwise_cons]
      refine ⟨?_, h⟩
      intro z hz
      rcases List.mem_cons.mp hz with h1 | h1
      · rw [h1]; exact hxy
      · exact htrans x y z hxy (hy z h1)
    · have hyx : le y x = true := by
        have ht2 := htot x y
        simp [hxy] at ht2
        exact ht2
      simp only [insertSorted, if_neg hxy]
      rw [List.pairwise_cons]
      constructor
      · intro z hz
        have hz2 : z ∈ x :: ys := (insertSorted_perm le x ys).subset hz
        rcases List.mem_cons.mp hz2 with h1 | h1
        · rw [h1]; exact hyx
        · exact hy z h1
      · exact ih hys

theorem stableSort_pairwise {α : Type} (le : α → α → Bool)
    (htrans : ∀ a b c, le a b = true → le b c = true → le a c = true)
    (htot : ∀ a b, (le a b || le b a) = true) :
    ∀ l : List α, (stableSort le l).Pairwise (fun a b => le a b = true) := by
  intro l
  induction l with
  | nil => simp [stableSort]
  | cons x xs ih => exact insertSorted_pairwise le htrans htot x _ ih

theorem sLe_tot_pair (a b : String) : (sLe a b || sLe b a) = true := by
  rcases lexLe_total a.data b.data with h | h <;> simp [sLe, h]

theorem sortByName_perm {α : Type} (key : α → String) (l : List α) :
    (sortByName key l).Perm l :=
  stableSort_perm _ l

theorem sortByName_pairwise {α : Type} (key : α → String) (l : List α) :
    (sortByName key l).Pairwise (fun a b => sLe (key a) (key b) = true) :=
  stableSort_pairwise _ (fun a b c => sLe_trans (key a) (key b) (key c))
    (fun a b => sLe_tot_pair (key a) (key b)) l

theorem sortDescStr_perm (l : List String) : (sortDescStr l).Perm l :=
  stableSort_perm _ l

theorem sortDescStr_pairwise (l : List String) :
    (sortDescStr l).Pairwise (fun a b => sLe b a = true) :=
  stableSort_pairwise _ (fun a b c h1 h2 => sLe_trans c b a h2 h1)
    (fun a b => sLe_tot_pair b a) l

/-! ### Claim theorem for log retention (C8) -/

/-- C8: after a sequence of runs whose (timestamp-embedded, hence
strictly increasing) log names are `names`, with retention `keep`,
exactly `min names.length keep` log files remain, and they are the `keep`
most recent by name: the descending sort of all names, truncated after
the first `keep` — exactly what deleting `logs[keep:]` of the descending
sort leaves. -/
theorem c8_log_retention (names : List String) (keep : Nat)
    (hinc : names.Pairwise (fun a b => sLt a b = true)) :
    logsAfterRuns names keep = (sortDescStr names).take keep ∧
      (logsAfterRuns names keep).length = min names.length keep := by
  have main : ∀ ns : List String, ns.Pairwise (fun a b => sLt a b = true) →
      logsAfterRuns ns keep = (sortDescStr ns).take keep := by
    intro ns
    induction ns using List.reverseRecOn with
    | nil => intro _; simp [logsAfterRuns, sortDescStr, stableSort]
    | append_singleton ns n ih =>
      intro hpwAll
      have hndAll : (ns ++ [n]).Nodup :=
        hpwAll.imp (fun hab => sLt_ne hab)
      rw [List.pairwise_append] at hpwAll
      obtain ⟨hpns, _, hlast⟩ := hpwAll
      have hn : ∀ x ∈ ns, sLt x n = true := fun x hx => hlast x hx n (by simp)
      have hstep : logsAfterRuns (ns ++ [n]) keep =
          pruneKeep (logsAfterRuns ns keep ++ [n]) keep := by
        simp [logsAfterRuns, List.foldl_append]
      rw [hstep, ih hpns]
      have hSperm : (sortDescStr ns).Perm ns := sortDescStr_perm ns
      have hSpw := sortDescStr_pairwise ns
      have hSnodup : (sortDescStr ns).Nodup := by
        rw [hSperm.nodup_iff]
        exact hpns.imp (fun hab => sLt_ne hab)
      have hSgt : ∀ x ∈ sortDescStr ns, sLt x n = true :=
        fun x hx => hn x (hSperm.subset hx)
      have hA : sortDescStr (ns ++ [n]) = n :: sortDescStr ns := by
        apply sorted_key_perm_eq (fun s => s) (fun x y => sLe y x = true)
          (fun x y h1 h2 => sLe_antisymm x y h2 h1)
        · exact (sortDescStr_perm _).trans
            ((List.perm_append_singleton n ns).trans (hSperm.symm.cons n))
        · exact sortDescStr_pairwise _
        · rw [List.pairwise_cons]
          exact ⟨fun x hx => sLt_le (hSgt x hx), hSpw⟩
        · have : (sortDescStr (ns ++ [n])).Nodup := by
            rw [(sortDescStr_perm _).nodup_iff]
            exact hndAll
          simpa [List.map_id] using this
      have hTsub : ((sortDescStr ns).take keep).Sublist (sortDescStr ns) :=
        List.take_sublist keep _
      have hTpw : ((sortDescStr ns).take keep).Pairwise
          (fun a b => sLe b a = true) := List.Pairwise.sublist hTsub hSpw
      have hTgt : ∀ x ∈ (sortDescStr ns).take keep, sLt x n = true :=
        fun x hx => hSgt x (hTsub.subset hx)
      have hTnodup : ((sortDescStr ns).take keep).Nodup :=
        hSnodup.sublist hTsub
      have hB : sortDescStr ((sortDescStr ns).take keep ++ [n]) =
          n :: (sortDescStr ns).take keep := by
        apply sorted_key_perm_eq (fun s => s) (fun x y => sLe y x = true)
          (fun x y h1 h2 => sLe_antisymm x y h2 h1)
        · exact (sortDescStr_perm _).trans
            (List.perm_append_singleton n _)
        · exact sortDescStr_pairwise _
        · rw [List.pairwise_cons]
          exact ⟨fun x hx => sLt_le (hTgt x hx), hTpw⟩
        · have : (sortDescStr ((sortDescStr ns).take keep ++ [n])).Nodup := by
            rw [(sortDescStr_perm _).nodup_iff]
            rw [List.nodup_append]
            refine ⟨hTnodup, by simp, ?_⟩
            intro x hx
            simp only [List.mem_singleton]
            intro hxn
            subst hxn
            exact absurd rfl (sLt_ne (hTgt x hx))
          simpa [List.map_id] using this
      simp only [pruneKeep]
      rw [hB, hA]
      cases keep with
      | zero => simp
      | succ kk =>
        have hmin : min kk (kk + 1) = kk := by omega
        simp [List.take_succ_cons, List.take_take, hmin]
  refine ⟨main names hinc, ?_⟩
  rw [main names hinc, List.length_take,
    (sortDescStr_perm names).length_eq]
  omega

theorem c8_log_retention_witness :
    logsAfterRuns ["d2025-01-01", "d2025-01-02", "d2025-01-03", "d2025-01-04"] 3 =
      ["d2025-01-04", "d2025-01-03", "d2025-01-02"] ∧
      (logsAfterRuns ["d2025-01-01", "d2025-01-02", "d2025-01-03", "d2025-01-04"] 3).length =
        min 4 3 := by
  have h := c8_log_retention
    ["d2025-01-01", "d2025-01-02", "d2025-01-03", "d2025-01-04"] 3 (by decide)
  refine ⟨h.1.trans (by decide), by simpa using h.2⟩

/-! ### Claim theorem for vulnrichment determinism (C7) -/

theorem flatMap_congr {α β : Type} (f g : α → List β) :
    ∀ l : List α, (∀ x ∈ l, f x = g x) → l.flatMap f = l.flatMap g := by
  intro l
  induction l with
  | nil => intro _; rfl
  | cons x xs ih =>
    intro h
    simp only [List.flatMap_cons]
    rw [h x (List.mem_cons_self x xs), ih (fun y hy => h y (List.mem_cons_of_mem x hy))]

/-- Sorting an already name-sorted list with distinct names is the
identity. -/
theorem sortByName_sorted_id {α : Type} (key : α → String) (l : List α)
    (hs : l.Pairwise (fun a b => sLe (key a) (key b) = true))
    (hnd : (l.map key).Nodup) : sortByName key l = l := by
  have hnd2 : ((sortByName key l).map key).Nodup :=
    ((sortByName_perm key l).map key).nodup_iff.mpr hnd
  exact sorted_key_perm_eq key (fun x y => sLe x y = true) sLe_antisymm
    (sortByName_perm key l) (sortByName_pairwise key l) hs hnd2

/-- Sorting commutes with a key-preserving map when names are distinct. -/
theorem sortByName_map {α β : Type} (keyA : α → String) (keyB : β → String)
    (f : α → β) (hk : ∀ x, keyB (f x) = keyA x) (l : List α)
    (hnd : (l.map keyA).Nodup) :
    sortByName keyB (l.map f) = (sortByName keyA l).map f := by
  have hmapnd : ((sortByName keyB (l.map f)).map keyB).Nodup := by
    have h1 : ((l.map f).map keyB).Nodup := by
      rw [List.map_map]
      have h2 : keyB ∘ f = keyA := funext hk
      rw [h2]
      exact hnd
    exact ((sortByName_perm keyB (l.map f)).map keyB).nodup_iff.mpr h1
  apply sorted_key_perm_eq keyB (fun x y => sLe x y = true) sLe_antisymm
  · exact (sortByName_perm _ _).trans ((sortByName_perm keyA l).map f).symm
  · exact sortByName_pairwise _ _
  · rw [List.pairwise_map]
    simp only [hk]
    exact sortByName_pairwise keyA l
  · exact hmapnd

/-- One sub-directory contributes the same records whether walked from
its raw listing or from its canonical form. -/
theorem rowsOfSub_canonSub (s : SubDir)
    (hnd : ((s.sfiles.filter (fun fe => globCve fe.fname)).map FileEnt.fname).Nodup) :
    rowsOfSub (canonSub s) = rowsOfSub s := by
  simp only [rowsOfSub, canonSub]
  have hall : ∀ fe ∈ sortByName FileEnt.fname
      (s.sfiles.filter (fun fe => globCve fe.fname)), globCve fe.fname = true :=
    fun fe hfe => (List.mem_filter.mp ((sortByName_perm _ _).subset hfe)).2
  rw [List.filter_eq_self.mpr hall]
  rw [sortByName_sorted_id FileEnt.fname _ (sortByName_pairwise _ _)
    (((sortByName_perm _ _).map FileEnt.fname).nodup_iff.mpr hnd)]

/-- One year directory contributes the same records whether walked from
its raw listing or from its canonical form. -/
theorem rowsOfYear_canonYear (y : YearDir)
    (hsub : ((y.ysubs.filter SubDir.sIsDir).map SubDir.sname).Nodup)
    (hfiles : ∀ s ∈ y.ysubs,
      ((s.sfiles.filter (fun fe => globCve fe.fname)).map FileEnt.fname).Nodup) :
    rowsOfYear (canonYear y) = rowsOfYear y := by
  simp only [rowsOfYear, canonYear]
  have hall : ∀ s2 ∈ sortByName SubDir.sname
      ((y.ysubs.filter SubDir.sIsDir).map canonSub), s2.sIsDir = true := by
    intro s2 hs2
    have hmem : s2 ∈ (y.ysubs.filter SubDir.sIsDir).map canonSub :=
      (sortByName_perm _ _).subset hs2
    obtain ⟨s0, hs0, hxe⟩ := List.mem_map.mp hmem
    rw [← hxe]
    exact (List.mem_filter.mp hs0).2
  rw [List.filter_eq_self.mpr hall]
  have hndmap : (((y.ysubs.filter SubDir.sIsDir).map canonSub).map SubDir.sname).Nodup := by
    rw [List.map_map]
    have h2 : SubDir.sname ∘ canonSub = SubDir.sname := funext (fun _ => rfl)
    rw [h2]
    exact hsub
  rw [sortByName_sorted_id SubDir.sname _ (sortByName_pairwise _ _)
    (((sortByName_perm _ _).map SubDir.sname).nodup_iff.mpr hndmap)]
  rw [sortByName_map SubDir.sname SubDir.sname canonSub (fun _ => rfl) _ hsub]
  rw [List.flatMap_map]
  apply flatMap_congr
  intro s hs
  have hsmem : s ∈ y.ysubs :=
    List.mem_of_mem_filter ((sortByName_perm _ _).subset hs)
  exact rowsOfSub_canonSub s (hfiles s hsmem)

/-- C7: for any two listings of an unchanged raw dataset — distinct-name
directory trees with the same canonical (order-free) content — the
produced canonical CSV text is byte-identical, because records are
emitted in lexical order over year directories, then sub-directories,
then filenames. -/
theorem c7_vulnrichment_csv_deterministic (r₁ r₂ : List YearDir)
    (g₁ : GoodRepo r₁) (g₂ : GoodRepo r₂)
    (hsame : canonRepoListing r₁ = canonRepoListing r₂) :
    csvFromVulnrichment r₁ = csvFromVulnrichment r₂ := by
  suffices h : ∀ r : List YearDir, GoodRepo r →
      (sortByName YearDir.yname (r.filter YearDir.yIsDir)).flatMap rowsOfYear =
        (canonRepoListing r).flatMap rowsOfYear by
    simp only [csvFromVulnrichment]
    rw [h r₁ g₁, h r₂ g₂, hsame]
  intro r g
  obtain ⟨gnd, gin⟩ := g
  simp only [canonRepoListing]
  rw [sortByName_map YearDir.yname YearDir.yname canonYear (fun _ => rfl) _ gnd]
  rw [List.flatMap_map]
  apply flatMap_congr
  intro y hy
  have hymem : y ∈ r :=
    List.mem_of_mem_filter ((sortByName_perm _ _).subset hy)
  exact (rowsOfYear_canonYear y (gin y hymem).1 (gin y hymem).2).symm

theorem c7_vulnrichment_csv_deterministic_witness :
    GoodRepo wRepo1 ∧ GoodRepo wRepo2 ∧
      canonRepoListing wRepo1 = canonRepoListing wRepo2 ∧
      csvFromVulnrichment wRepo1 = csvFromVulnrichment wRepo2 :=
  ⟨by decide, by decide, rfl,
   c7_vulnrichment_csv_deterministic wRepo1 wRepo2 (by decide) (by decide) rfl⟩

end CpesCsv
